import Mathlib

/-!
Verification of the BioSimSpace process-orchestration layer against its
specification.  The repository ships only the documentation of this layer
(`src/python/BioSimSpace/Driver/README.md`, the `BioSimSpace.Process`
README, and demonstration notebooks); the Python implementation itself is
not part of the source snapshot.  Every component below is therefore
modelled from the specification text, as faithfully to its words as the
shallow embedding allows, and the claims are settled against these models.
-/

namespace BioSimSpace

/-! ## Process lifecycle state machine (spec §4.2) -/

/-- Modelled from the spec: the lifecycle states of a Process Supervisor
(`Created → Configured → Running → {Finished, Killed, Errored}`), §4.2.
The implementing module `process.py` is missing from the snapshot. -/
inductive ProcState where
  | created
  | configured
  | running
  | finished
  | killed
  | errored
deriving DecidableEq, Repr

/-- Modelled from the spec: `Finished/Errored/Killed` are terminal, §4.2. -/
def ProcState.isTerminal : ProcState → Bool
  | .finished => true
  | .killed => true
  | .errored => true
  | _ => false

/-- Modelled from the spec: the error taxonomy of §7 restricted to the
constructors the lifecycle operations can raise. -/
inductive ProcError where
  | executableNotFound
  | invalidState
  | processSpawn
deriving DecidableEq, Repr

/-- Modelled from the spec: the state of one Process Supervisor (§3 and
§4.2): lifecycle state, the owned ConfigStore (ordered lines) and
ArgumentStore, the config text serialized to disk at launch (if any), a
count of config serializations, whether the resolved executable path still
exists at spawn time, and whether an OS subprocess has been spawned.  The
implementing module `process.py` is missing from the snapshot. -/
structure Process where
  state : ProcState
  config : List String
  writtenConfig : Option (List String)
  writeCount : Nat
  exeExists : Bool
  spawned : Bool
deriving DecidableEq, Repr

/-- Modelled from the spec: `start()` requires state `Created`/`Configured`;
it writes the serialized config, spawns the subprocess and transitions to
`Running`; it fails with `ExecutableNotFoundError` if the resolved path no
longer exists at spawn time, before any subprocess is spawned (§4.2, §7). -/
def Process.start (p : Process) : Except ProcError Process :=
  match p.state with
  | .created | .configured =>
      if p.exeExists then
        .ok { p with
              state := .running
              writtenConfig := some p.config
              writeCount := p.writeCount + 1
              spawned := true }
      else
        .error .executableNotFound
  | _ => .error .invalidState

/-- Modelled from the spec: `kill()` requests termination of the subprocess;
idempotent; transitions to `Killed` once confirmed dead; safe to call from
`Created` (no-op) or any terminal state (no-op) (§4.2).  It never raises,
so it is a total function on Process states. -/
def Process.kill (p : Process) : Process :=
  match p.state with
  | .running => { p with state := .killed }
  | _ => p

/-- Modelled from the spec: one tick of the background poller observing the
subprocess (§4.2, §4.3): a zero exit code moves `Running → Finished`, a
non-zero exit code (or irrecoverably malformed output) moves
`Running → Errored`, and a still-live subprocess changes nothing.  In any
state other than `Running` a tick changes nothing. -/
def Process.pollerTick (p : Process) (exitCode : Option Nat) : Process :=
  match p.state, exitCode with
  | .running, some 0 => { p with state := .finished }
  | .running, some _ => { p with state := .errored }
  | _, _ => p

/-- Modelled from the spec: `wait()` blocks until the subprocess reaches a
terminal state; it does not itself change state (the poller does) (§4.2).
In the embedding it is the identity on the supervisor state. -/
def Process.wait (p : Process) : Process := p

/-- Modelled from the spec: `addToConfig` appends lines to the ConfigStore;
after `Running` this is forward bookkeeping only and does not touch the
already-written config file (§4.2, README `addToConfig`). -/
def Process.addToConfig (p : Process) (lines : List String) : Process :=
  { p with config := p.config ++ lines }

/-- Modelled from the spec: `setConfig` replaces the entire ConfigStore
(README `setConfig`); the file already written at launch is untouched. -/
def Process.setConfig (p : Process) (lines : List String) : Process :=
  { p with config := lines }

/-- Modelled from the spec: `isRunning()` is true only in state `Running`
with the OS process confirmed alive (§4.2). -/
def Process.isRunning (p : Process) : Bool :=
  p.state = .running && p.spawned

/-- The lifecycle operations a caller or the poller can apply to a Process,
used to quantify over arbitrary interaction sequences.  A failing `start`
leaves the supervisor unchanged (the error is surfaced synchronously). -/
inductive ProcOp where
  | start
  | kill
  | wait
  | tick (exitCode : Option Nat)
  | addConfig (lines : List String)
  | replaceConfig (lines : List String)
deriving DecidableEq, Repr

/-- Apply one lifecycle operation; a failing `start()` raises to the caller
and leaves the supervisor state unchanged. -/
def Process.applyOp (p : Process) : ProcOp → Process
  | .start => match p.start with
      | .ok q => q
      | .error _ => p
  | .kill => p.kill
  | .wait => p.wait
  | .tick e => p.pollerTick e
  | .addConfig ls => p.addToConfig ls
  | .replaceConfig ls => p.setConfig ls

/-- Apply a sequence of lifecycle operations in order. -/
def Process.applyOps (p : Process) (ops : List ProcOp) : Process :=
  ops.foldl Process.applyOp p

/-- A freshly created Process: state `Created`, empty stores, nothing
written, no subprocess. -/
def Process.mk0 (cfg : List String) (exeOk : Bool) : Process :=
  { state := .created
    config := cfg
    writtenConfig := none
    writeCount := 0
    exeExists := exeOk
    spawned := false }

/-! ## Record Store (spec §3, §4.3) -/

/-- Modelled from the spec: a Record is a single named, typed measurement
with a monotonically increasing sequence position and a numeric value (§3).
The implementing poller/record code is missing from the snapshot. -/
structure Record where
  pos : Nat
  value : Int
deriving DecidableEq, Repr

/-- Modelled from the spec: a RecordStore is a per-Process mapping from
record name to an append-only ordered sequence of Records (§3), embedded as
an association list. -/
def RecordStore := List (String × List Record)

/-- The full ordered series recorded under a name (the
`getRecord(name, series=true)` query surface); an unknown name yields the
empty series. -/
def getSeries (s : RecordStore) (n : String) : List Record :=
  match s with
  | [] => []
  | (m, rs) :: rest => if m = n then rs else getSeries rest n

/-- The "latest" query: the last element of the series (§3). -/
def getLatest (s : RecordStore) (n : String) : Option Record :=
  (getSeries s n).getLast?

/-- The next sequence position for a series: one past the last recorded
position, starting from zero. -/
def nextPos (rs : List Record) : Nat :=
  match rs.getLast? with
  | some r => r.pos + 1
  | none => 0

/-- Modelled from the spec: the poller appends one parsed Record under a
name, at the next strictly larger sequence position (§3, §4.3). -/
def appendRecord (s : RecordStore) (n : String) (v : Int) : RecordStore :=
  match s with
  | [] => [(n, [⟨0, v⟩])]
  | (m, rs) :: rest =>
      if m = n then (m, rs ++ [⟨nextPos rs, v⟩]) :: rest
      else (m, rs) :: appendRecord rest n v

/-- Apply a batch of poller appends in order. -/
def appendAll (s : RecordStore) (l : List (String × Int)) : RecordStore :=
  l.foldl (fun s e => appendRecord s e.1 e.2) s

/-- A RecordStore built from scratch by a sequence of poller appends. -/
def buildStore (l : List (String × Int)) : RecordStore :=
  appendAll [] l

/-- Positions along a series are strictly increasing. -/
def StrictPos (rs : List Record) : Prop :=
  List.Chain' (fun a b => a.pos < b.pos) rs

/-! ## Free-Energy Run aggregate status (spec §3, §4.4) -/

/-- Modelled from the spec: the per-window states entering the aggregate
status of a Free-Energy Run (§3): each launched window is `Running`,
`Finished` or `Errored`. -/
inductive WindowStatus where
  | running
  | finished
  | errored
deriving DecidableEq, Repr

/-- Severity of a window state under the precedence
Errored > Running > Finished. -/
def WindowStatus.sev : WindowStatus → Nat
  | .finished => 0
  | .running => 1
  | .errored => 2

/-- The worse of two window states under the precedence. -/
def worse (a b : WindowStatus) : WindowStatus :=
  if a.sev < b.sev then b else a

/-- Modelled from the spec: the set's aggregate state is the worst case of
the per-window states (§3), computed by folding `worse` over a non-empty
window set given as head and tail. -/
def aggregateStatus (w : WindowStatus) (ws : List WindowStatus) : WindowStatus :=
  ws.foldl worse w

/-! ## Free-Energy Run construction and directory layout (spec §4.4, §6) -/

/-- Left-pad a digit string with zeros to the given width. -/
def padZeros (w : Nat) (s : String) : String :=
  String.mk (List.replicate (w - s.length) '0') ++ s

/-- Modelled from the spec: the fixed decimal formatting of a lambda value
used in window directory names, four decimal places as in `lambda_0.0000`
(§6, demo notebook `freenrg_somd/free/lambda_0.0000`).  Lambda values are
embedded in units of 1/10000 (0 .. 10000). -/
def formatLambda (lam : Nat) : String :=
  toString (lam / 10000) ++ "." ++ padZeros 4 (toString (lam % 10000))

/-- Modelled from the spec: one lambda window of a Free-Energy Run — its
lambda value, its dedicated subdirectory, and its independent Process
(§3, §4.4). -/
structure Window where
  lam : Nat
  dir : String
  proc : Process
deriving DecidableEq, Repr

/-- Modelled from the spec: a Free-Energy Run — a named set of
(lambda value, Process) pairs sharing one root working directory (§3). -/
structure FERun where
  root : String
  leg : String
  windows : List Window
deriving DecidableEq, Repr

/-- The load-bearing window directory name `root/{leg}/lambda_{value}` with
fixed decimal formatting of the value (§6). -/
def windowDir (root leg : String) (lam : Nat) : String :=
  root ++ "/" ++ leg ++ "/lambda_" ++ formatLambda lam

/-- Modelled from the spec: constructing a Free-Energy Run creates one
window per lambda value of the schedule, each with its own subdirectory
and an independent freshly created Process (§4.4). -/
def mkFERun (root leg : String) (schedule : List Nat) (cfg : List String)
    (exeOk : Bool) : FERun :=
  { root := root
    leg := leg
    windows := schedule.map fun lam =>
      { lam := lam, dir := windowDir root leg lam, proc := Process.mk0 cfg exeOk } }

/-- The window directories of a Run, in schedule order. -/
def windowDirs (r : FERun) : List String :=
  r.windows.map Window.dir

/-- Modelled from the spec: `runAll()` starts every window's Process;
windows are mutually independent (§4.4). -/
def runAll (r : FERun) : FERun :=
  { r with windows := r.windows.map fun w => { w with proc := w.proc.applyOp .start } }

/-- Kill the i-th window's Process, leaving all other windows untouched. -/
def killWindow (r : FERun) (i : Nat) : FERun :=
  match r.windows[i]? with
  | some w => { r with windows := r.windows.set i { w with proc := w.proc.kill } }
  | none => r

/-! ## Engine-adapter selection and dispatch (spec §4.1, §6) -/

/-- Modelled from the spec: the kinds of simulation Protocol (§3). -/
inductive ProtocolKind where
  | minimisation
  | equilibration
  | production
  | metadynamics
  | freeEnergyLeg
deriving DecidableEq, Repr

/-- Modelled from the spec: one Engine Adapter variant — its name, the
Protocol kinds it declares compatibility with, and its known executable
names (§4.1).  The variant set is a list in the fixed declared-priority
order. -/
structure EngineAdapter where
  name : String
  compatible : List ProtocolKind
  executables : List String
deriving DecidableEq, Repr

/-- Modelled from the spec: the selection errors of §4.1:
`NoEngineFoundError` when no candidate executable is discoverable, and
`UnsupportedProtocolError` when no variant declares compatibility at all. -/
inductive SelectError where
  | noEngineFound
  | unsupportedProtocol
deriving DecidableEq, Repr

/-- Modelled from the spec: an adapter is discoverable when one of its
known executable names is found in the installed-executable set (§4.1, §6). -/
def discoverable (installed : List String) (a : EngineAdapter) : Bool :=
  a.executables.any fun e => installed.contains e

/-- Modelled from the spec: the dispatcher filters the variant set to those
declaring compatibility with the Protocol kind, then takes the first
discoverable candidate in the fixed declared-priority order; an empty
compatible set fails with `UnsupportedProtocolError`, a compatible but
nowhere-installed set with `NoEngineFoundError` (§4.1). -/
def selectAdapter (variants : List EngineAdapter) (installed : List String)
    (k : ProtocolKind) : Except SelectError EngineAdapter :=
  if (variants.filter fun a => a.compatible.contains k).isEmpty then
    .error .unsupportedProtocol
  else
    match (variants.filter fun a => a.compatible.contains k).find?
        (discoverable installed) with
    | some a => .ok a
    | none => .error .noEngineFound

/-- The amber variant used in concrete selection examples. -/
def amberAdapter : EngineAdapter :=
  ⟨"amber", [.minimisation, .production], ["sander"]⟩

/-- A two-variant set in declared-priority order, used in examples. -/
def demoVariants : List EngineAdapter :=
  [amberAdapter, ⟨"namd", [.minimisation], ["namd2"]⟩]

/-- A concrete installed-executable set used in examples. -/
def demoInstalled : List String := ["sander", "namd2"]

/-! ## MD.run dispatch (Driver README, spec §2) -/

/-- Modelled from the spec: errors surfaced by `MD.run` — either a
selection error or a Process launch error. -/
inductive MDError where
  | sel (e : SelectError)
  | proc (e : ProcError)
deriving DecidableEq, Repr

/-- Modelled from the spec and the Driver README: `BSS.MD.run` selects an
adapter for the Protocol kind, constructs a Process, starts it, and returns
the running handle; any selection or launch error is surfaced instead and
no Process is returned.  The `exeStillExists` flag captures whether the
resolved executable path still exists at spawn time. -/
def mdRun (variants : List EngineAdapter) (installed : List String)
    (k : ProtocolKind) (cfg : List String) (exeStillExists : Bool) :
    Except MDError Process :=
  match selectAdapter variants installed k with
  | .error e => .error (.sel e)
  | .ok _ =>
      match (Process.mk0 cfg exeStillExists).start with
      | .error e => .error (.proc e)
      | .ok p => .ok p

/-- The Process value returned by a concrete successful `mdRun` call. -/
def startedDemoProc : Process :=
  { state := .running
    config := ["line"]
    writtenConfig := some ["line"]
    writeCount := 1
    exeExists := true
    spawned := true }

/-! ## Config serialization at launch (spec §4.2, §6) -/

/-- A Process counts as launched once it has left the pre-launch states
`Created`/`Configured`; from then on the config file on disk is final. -/
def Process.isLaunched (p : Process) : Bool :=
  match p.state with
  | .created => false
  | .configured => false
  | _ => true

/-! ## Argument Store (spec §3, Process README command-line arguments) -/

/-- Modelled from the spec: an argument value is either a regular value or
a boolean flag (§3, README `setArg`). -/
inductive ArgValue where
  | str (s : String)
  | flag (b : Bool)
deriving DecidableEq, Repr

/-- Modelled from the spec: the ArgumentStore is an order-preserving
mapping from flag name to value (§3), embedded as an association list in
insertion order. -/
abbrev ArgumentStore := List (String × ArgValue)

/-- Modelled from the spec and README: `setArg` overwrites any existing
argument with the same name in place, preserving the store's order, and
appends at the end only when the name is new. -/
def setArg (st : ArgumentStore) (f : String) (v : ArgValue) : ArgumentStore :=
  if st.any (fun e => e.1 == f) then
    st.map fun e => if e.1 == f then (f, v) else e
  else st ++ [(f, v)]

/-! ## Theorems -/

theorem kill_state_of_terminal (p : Process) (h : p.state.isTerminal = true) :
    p.kill = p := by
  cases hs : p.state <;> simp [Process.kill, hs] <;>
    simp [hs, ProcState.isTerminal] at h

theorem tick_of_terminal (p : Process) (e : Option Nat)
    (h : p.state.isTerminal = true) : p.pollerTick e = p := by
  cases hs : p.state <;> cases e <;>
    simp [Process.pollerTick, hs] <;> simp [hs, ProcState.isTerminal] at h

theorem start_of_terminal (p : Process) (h : p.state.isTerminal = true) :
    p.start = .error .invalidState := by
  cases hs : p.state <;> simp [Process.start, hs] <;>
    simp [hs, ProcState.isTerminal] at h

theorem applyOp_state_of_terminal (p : Process) (op : ProcOp)
    (h : p.state.isTerminal = true) : (p.applyOp op).state = p.state := by
  cases op with
  | start => simp [Process.applyOp, start_of_terminal p h]
  | kill => simp [Process.applyOp, kill_state_of_terminal p h]
  | wait => rfl
  | tick e => simp [Process.applyOp, tick_of_terminal p e h]
  | addConfig ls => rfl
  | replaceConfig ls => rfl

theorem applyOps_state_of_terminal (p : Process) (ops : List ProcOp)
    (h : p.state.isTerminal = true) : (p.applyOps ops).state = p.state := by
  induction ops generalizing p with
  | nil => rfl
  | cons op ops ih =>
      have h1 := applyOp_state_of_terminal p op h
      have h2 : (p.applyOp op).state.isTerminal = true := by rw [h1]; exact h
      calc (p.applyOps (op :: ops)).state
          = ((p.applyOp op).applyOps ops).state := rfl
        _ = (p.applyOp op).state := ih (p.applyOp op) h2
        _ = p.state := h1

/-- C1. Terminal lifecycle states are absorbing: once a Process is
`Finished`, `Errored` or `Killed`, every subsequent `start()` call fails
with an error, and no sequence of operations (`start`, `kill`, `wait`,
poller ticks, config edits) ever changes the lifecycle state, so every
lifecycle query keeps returning the same terminal state. -/
theorem terminal_states_absorbing (p : Process)
    (h : p.state.isTerminal = true) :
    p.start = .error .invalidState ∧
    ∀ ops : List ProcOp, (p.applyOps ops).state = p.state :=
  ⟨start_of_terminal p h, fun ops => applyOps_state_of_terminal p ops h⟩

/-- Witness for C1 at a concrete finished Process and a concrete operation
sequence. -/
theorem terminal_states_absorbing_witness :
    (let p := ((Process.mk0 ["a"] true).applyOp .start).pollerTick (some 0)
     p.state.isTerminal = true ∧
     p.start = .error .invalidState ∧
     (p.applyOps [.kill, .start, .tick (some 1), .wait]).state = p.state) := by
  refine ⟨by decide, ?_, ?_⟩
  · exact (terminal_states_absorbing _ (by decide)).1
  · exact (terminal_states_absorbing _ (by decide)).2 _

/-- C2. `kill()` is idempotent and total over all lifecycle states: on a
`Running` process it performs exactly one transition, to `Killed`, and a
second call changes nothing (it is a function, so it raises no error); from
`Created`, `Configured` or any terminal state it is a no-op. -/
theorem kill_idempotent_total (p : Process) :
    (p.kill.kill = p.kill) ∧
    (p.state = .running → (p.kill.state = .killed ∧ p.kill.kill = p.kill)) ∧
    (p.state ≠ .running → p.kill = p) := by
  refine ⟨?_, ?_, ?_⟩
  · cases hs : p.state <;> simp [Process.kill, hs]
  · intro h; constructor <;> simp [Process.kill, h]
  · intro h; cases hs : p.state <;> simp [Process.kill, hs] <;> exact absurd hs h

/-- Witness for C2 at a concrete Running process and a concrete Created
process. -/
theorem kill_idempotent_total_witness :
    (let r := (Process.mk0 [] true).applyOp .start
     r.state = .running ∧ r.kill.state = .killed ∧ r.kill.kill = r.kill) ∧
    (let c := Process.mk0 [] true
     c.state ≠ .running ∧ c.kill = c) := by
  refine ⟨⟨by decide, ?_, ?_⟩, by decide, ?_⟩
  · exact ((kill_idempotent_total _).2.1 (by decide)).1
  · exact (kill_idempotent_total _).1
  · exact (kill_idempotent_total _).2.2 (by decide)

theorem getSeries_appendRecord_same (s : RecordStore) (n : String) (v : Int) :
    getSeries (appendRecord s n v) n
      = getSeries s n ++ [⟨nextPos (getSeries s n), v⟩] := by
  induction s with
  | nil => simp [appendRecord, getSeries, nextPos]
  | cons e rest ih =>
      obtain ⟨m, rs⟩ := e
      by_cases h : m = n
      · simp [appendRecord, getSeries, h]
      · simp [appendRecord, getSeries, h, ih]

theorem getSeries_appendRecord_other (s : RecordStore) (m n : String)
    (v : Int) (h : m ≠ n) :
    getSeries (appendRecord s m v) n = getSeries s n := by
  induction s with
  | nil => simp [appendRecord, getSeries, h]
  | cons e rest ih =>
      obtain ⟨m', rs⟩ := e
      by_cases h' : m' = m
      · subst h'
        simp [appendRecord, getSeries, h]
      · by_cases h'' : m' = n
        · subst h''
          simp [appendRecord, getSeries, h']
        · simp [appendRecord, getSeries, h', h'', ih]

theorem getSeries_appendAll_extends (s : RecordStore)
    (l : List (String × Int)) (n : String) :
    ∃ t, getSeries (appendAll s l) n = getSeries s n ++ t := by
  induction l generalizing s with
  | nil => exact ⟨[], by simp [appendAll]⟩
  | cons e rest ih =>
      obtain ⟨m, v⟩ := e
      obtain ⟨t, ht⟩ := ih (appendRecord s m v)
      by_cases h : m = n
      · subst h
        refine ⟨⟨nextPos (getSeries s m), v⟩ :: t, ?_⟩
        have : appendAll s ((m, v) :: rest) = appendAll (appendRecord s m v) rest := rfl
        rw [this, ht, getSeries_appendRecord_same]
        simp
      · refine ⟨t, ?_⟩
        have : appendAll s ((m, v) :: rest) = appendAll (appendRecord s m v) rest := rfl
        rw [this, ht, getSeries_appendRecord_other s m n v h]

theorem strictPos_append_next (rs : List Record) (v : Int)
    (h : StrictPos rs) : StrictPos (rs ++ [⟨nextPos rs, v⟩]) := by
  unfold StrictPos at *
  rw [List.chain'_append]
  refine ⟨h, List.chain'_singleton _, ?_⟩
  intro x hx y hy
  simp at hy
  subst hy
  have hx' : rs.getLast? = some x := hx
  simp [nextPos, hx']

theorem strictPos_appendRecord (s : RecordStore) (m n : String) (v : Int)
    (h : StrictPos (getSeries s n)) :
    StrictPos (getSeries (appendRecord s m v) n) := by
  by_cases hmn : m = n
  · subst hmn
    rw [getSeries_appendRecord_same]
    exact strictPos_append_next _ _ h
  · rw [getSeries_appendRecord_other s m n v hmn]
    exact h

theorem strictPos_appendAll (s : RecordStore) (l : List (String × Int))
    (n : String) (h : StrictPos (getSeries s n)) :
    StrictPos (getSeries (appendAll s l) n) := by
  induction l generalizing s with
  | nil => exact h
  | cons e rest ih =>
      obtain ⟨m, v⟩ := e
      exact ih (appendRecord s m v) (strictPos_appendRecord s m n v h)

/-- C3. For every record name, a time-series query of a Record Store
built by poller appends returns a sequence whose positions are strictly
increasing; reading is idempotent (repeated queries return the same
sequence); and the returned sequence is a snapshot: after any further
appends the store's new series merely extends the already-returned
sequence, which is never retroactively altered. -/
theorem recordStore_series_invariants (l : List (String × Int)) (n : String) :
    StrictPos (getSeries (buildStore l) n) ∧
    getSeries (buildStore l) n = getSeries (buildStore l) n ∧
    ∀ more : List (String × Int),
      ∃ t, getSeries (appendAll (buildStore l) more) n
             = getSeries (buildStore l) n ++ t := by
  refine ⟨?_, rfl, fun more => getSeries_appendAll_extends _ more n⟩
  have h0 : StrictPos (getSeries ([] : RecordStore) n) := by
    simp [getSeries, StrictPos]
  exact strictPos_appendAll [] l n h0

theorem worse_errored_left (b : WindowStatus) : worse .errored b = .errored := by
  cases b <;> decide

theorem aggregate_of_errored (w : WindowStatus) (ws : List WindowStatus)
    (h : w = .errored ∨ .errored ∈ ws) :
    aggregateStatus w ws = .errored := by
  induction ws generalizing w with
  | nil =>
      rcases h with h | h
      · simpa [aggregateStatus] using h
      · simp at h
  | cons x xs ih =>
      rcases h with h | h
      · subst h
        have : aggregateStatus .errored (x :: xs) = aggregateStatus (worse .errored x) xs := rfl
        rw [this, worse_errored_left]
        exact ih .errored (Or.inl rfl)
      · rcases List.mem_cons.mp h with h | h
        · subst h
          have : aggregateStatus w (.errored :: xs) = aggregateStatus (worse w .errored) xs := rfl
          rw [this]
          have hw : worse w .errored = .errored := by cases w <;> decide
          rw [hw]
          exact ih .errored (Or.inl rfl)
        · have step : aggregateStatus w (x :: xs) = aggregateStatus (worse w x) xs := rfl
          rw [step]
          exact ih (worse w x) (Or.inr h)

theorem aggregate_of_all_finished (w : WindowStatus) (ws : List WindowStatus)
    (hw : w = .finished) (h : ∀ x ∈ ws, x = .finished) :
    aggregateStatus w ws = .finished := by
  induction ws generalizing w with
  | nil => simpa [aggregateStatus] using hw
  | cons x xs ih =>
      have hx : x = .finished := h x (List.mem_cons_self _ _)
      subst hw; subst hx
      have step : aggregateStatus WindowStatus.finished (WindowStatus.finished :: xs)
               = aggregateStatus (worse .finished .finished) xs := rfl
      rw [step]
      have hww : worse WindowStatus.finished WindowStatus.finished = WindowStatus.finished := by
        decide
      rw [hww]
      exact ih WindowStatus.finished rfl (fun y hy => h y (List.mem_cons_of_mem _ hy))

theorem aggregate_of_running (w : WindowStatus) (ws : List WindowStatus)
    (hne : w ≠ .errored) (hnem : .errored ∉ ws)
    (h : w = .running ∨ .running ∈ ws) :
    aggregateStatus w ws = .running := by
  induction ws generalizing w with
  | nil =>
      rcases h with h | h
      · simpa [aggregateStatus] using h
      · simp at h
  | cons x xs ih =>
      have hxne : x ≠ .errored := fun hx => hnem (hx ▸ List.mem_cons_self _ _)
      have hxs : WindowStatus.errored ∉ xs := fun hx => hnem (List.mem_cons_of_mem _ hx)
      have step : aggregateStatus w (x :: xs) = aggregateStatus (worse w x) xs := rfl
      rw [step]
      rcases h with h | h
      · subst h
        have hwx : worse .running x = .running := by
          cases x <;> first | decide | exact absurd rfl hxne
        rw [hwx]
        exact ih .running (by decide) hxs (Or.inl rfl)
      · rcases List.mem_cons.mp h with h | h
        · subst h
          have hwx : worse w .running = .running := by
            cases w <;> first | decide | exact absurd rfl hne
          rw [hwx]
          exact ih .running (by decide) hxs (Or.inl rfl)
        · have hne' : worse w x ≠ .errored := by
            cases w <;> cases x <;>
              first
                | decide
                | exact absurd rfl hne
                | exact absurd rfl hxne
          exact ih (worse w x) hne' hxs (Or.inr h)

/-- C4. For every Free-Energy Run with a non-empty window set (head `w`,
tail `ws`), the aggregate status is the worst case of the per-window states
under the precedence Errored > Running > Finished: if any window is Errored
the aggregate is Errored; else if all windows are Finished the aggregate is
Finished; otherwise the aggregate is Running. -/
theorem freeEnergy_aggregate_status (w : WindowStatus) (ws : List WindowStatus) :
    ((w = .errored ∨ .errored ∈ ws) → aggregateStatus w ws = .errored) ∧
    ((w = .finished ∧ ∀ x ∈ ws, x = .finished) →
       aggregateStatus w ws = .finished) ∧
    ((w ≠ .errored ∧ .errored ∉ ws ∧
        ¬(w = .finished ∧ ∀ x ∈ ws, x = .finished)) →
       aggregateStatus w ws = .running) := by
  refine ⟨aggregate_of_errored w ws, fun h => aggregate_of_all_finished w ws h.1 h.2, ?_⟩
  rintro ⟨hne, hnem, hnfin⟩
  apply aggregate_of_running w ws hne hnem
  by_cases hw : w = .running
  · exact Or.inl hw
  · right
    have hwf : w = .finished := by
      cases w
      · exact absurd rfl hw
      · rfl
      · exact absurd rfl hne
    have : ¬∀ x ∈ ws, x = .finished := fun hall => hnfin ⟨hwf, hall⟩
    obtain ⟨x, hx, hxne⟩ := not_forall₂.mp this
    have hxe : x ≠ .errored := fun he => hnem (he ▸ hx)
    have : x = .running := by
      cases x
      · rfl
      · exact absurd rfl hxne
      · exact absurd rfl hxe
    exact this ▸ hx

/-- Witness for C4 at concrete window sets exercising all three cases. -/
theorem freeEnergy_aggregate_status_witness :
    aggregateStatus .finished [.errored, .finished] = .errored ∧
    aggregateStatus .finished [.finished, .finished] = .finished ∧
    aggregateStatus .finished [.running, .finished] = .running := by
  refine ⟨?_, ?_, ?_⟩
  · exact (freeEnergy_aggregate_status _ _).1 (Or.inr (by decide))
  · exact (freeEnergy_aggregate_status _ _).2.1 ⟨rfl, by decide⟩
  · exact (freeEnergy_aggregate_status _ _).2.2 (by decide)

/-- C5. Constructing a Free-Energy Run with a lambda schedule of n
values creates exactly n windows, one per lambda value, whose directories
are `root/{leg}/lambda_{value}` with fixed four-decimal formatting of the
value, each holding an independent Process; and killing one window leaves
every other window's entry (hence its Process) unaffected, while the killed
window only has its own Process killed. -/
theorem feRun_window_layout (root leg : String) (schedule : List Nat)
    (cfg : List String) (exeOk : Bool) :
    (mkFERun root leg schedule cfg exeOk).windows.length = schedule.length ∧
    windowDirs (mkFERun root leg schedule cfg exeOk)
      = schedule.map (windowDir root leg) ∧
    (∀ (r : FERun) (i j : Nat), j ≠ i →
       (killWindow r i).windows[j]? = r.windows[j]?) ∧
    (∀ (r : FERun) (i : Nat) (w : Window), r.windows[i]? = some w →
       (killWindow r i).windows[i]? = some { w with proc := w.proc.kill }) := by
  refine ⟨by simp [mkFERun], by simp [windowDirs, mkFERun], ?_, ?_⟩
  · intro r i j hji
    unfold killWindow
    cases h : r.windows[i]? with
    | none => rfl
    | some w => simp [List.getElem?_set_ne (fun he => hji he.symm)]
  · intro r i w hw
    unfold killWindow
    rw [hw]
    have hi : i < r.windows.length := by
      rcases List.getElem?_eq_some.mp hw with ⟨h, _⟩
      exact h
    simp [List.getElem?_set_eq_of_lt _ hi]

/-- Witness for C5: the schedule [0.0, 0.5, 1.0] yields exactly the windows
`root/leg/lambda_0.0000`, `lambda_0.5000`, `lambda_1.0000`; after starting
all windows, killing window 2 (index 1) kills only that window's Process
and leaves windows 1 and 3 exactly as they were. -/
theorem feRun_window_layout_witness :
    (let run := runAll (mkFERun "root" "leg" [0, 5000, 10000] [] true)
     (mkFERun "root" "leg" [0, 5000, 10000] [] true).windows.length = 3 ∧
     windowDirs (mkFERun "root" "leg" [0, 5000, 10000] [] true)
       = ["root/leg/lambda_0.0000", "root/leg/lambda_0.5000",
          "root/leg/lambda_1.0000"] ∧
     (killWindow run 1).windows[0]? = run.windows[0]? ∧
     (killWindow run 1).windows[2]? = run.windows[2]? ∧
     ((killWindow run 1).windows[1]?.map (fun w => w.proc.state)
        = some .killed)) := by
  refine ⟨by decide, by decide, ?_, ?_, by decide⟩
  · exact (feRun_window_layout "root" "leg" [0, 5000, 10000] [] true).2.2.1 _ 1 0
      (by decide)
  · exact (feRun_window_layout "root" "leg" [0, 5000, 10000] [] true).2.2.1 _ 1 2
      (by decide)

theorem find?_first_decomp {α : Type} (p : α → Bool) (l : List α) (a : α)
    (h : l.find? p = some a) :
    ∃ l₁ l₂, l = l₁ ++ a :: l₂ ∧ ∀ b ∈ l₁, p b = false := by
  induction l with
  | nil => simp [List.find?] at h
  | cons x xs ih =>
      by_cases hx : p x = true
      · rw [List.find?_cons_of_pos _ hx] at h
        cases h
        exact ⟨[], xs, rfl, by simp⟩
      · rw [List.find?_cons_of_neg _ hx] at h
        obtain ⟨l₁, l₂, heq, hall⟩ := ih h
        refine ⟨x :: l₁, l₂, by rw [heq, List.cons_append], ?_⟩
        intro b hb
        rcases List.mem_cons.mp hb with hb | hb
        · subst hb
          exact Bool.eq_false_iff.mpr hx
        · exact hall b hb

/-- C6. Engine-adapter selection is deterministic: for the same variant
set, installed-executable set and Protocol kind, repeated calls return the
same result; and when selection succeeds, the chosen adapter is a
compatible, discoverable variant and the first such in the fixed
declared-priority order — every compatible variant preceding it is not
discoverable. -/
theorem adapter_selection_deterministic (variants : List EngineAdapter)
    (installed : List String) (k : ProtocolKind) (a : EngineAdapter) :
    (selectAdapter variants installed k = selectAdapter variants installed k) ∧
    (selectAdapter variants installed k = .ok a →
       a ∈ variants ∧ a.compatible.contains k = true ∧
       discoverable installed a = true ∧
       ∃ pre post,
         variants.filter (fun b => b.compatible.contains k) = pre ++ a :: post ∧
         ∀ b ∈ pre, discoverable installed b = false) := by
  refine ⟨rfl, fun h => ?_⟩
  unfold selectAdapter at h
  by_cases he : (variants.filter fun b => b.compatible.contains k).isEmpty = true
  · rw [if_pos he] at h
    cases h
  · rw [if_neg he] at h
    cases hf : (variants.filter fun b => b.compatible.contains k).find?
        (discoverable installed) with
    | none => rw [hf] at h; cases h
    | some a' =>
        rw [hf] at h
        cases h
        have hmem := List.mem_of_find?_eq_some hf
        have hcompat := (List.mem_filter.mp hmem).2
        have hvar := (List.mem_filter.mp hmem).1
        have hdisc := List.find?_some hf
        obtain ⟨pre, post, heq, hpre⟩ := find?_first_decomp _ _ _ hf
        exact ⟨hvar, by simpa using hcompat, hdisc, pre, post, heq, hpre⟩

/-- Witness for C6 with two variants sharing compatibility: the first
declared, discoverable variant wins. -/
theorem adapter_selection_deterministic_witness :
    selectAdapter demoVariants demoInstalled .minimisation = .ok amberAdapter ∧
    (amberAdapter ∈ demoVariants ∧
     amberAdapter.compatible.contains .minimisation = true ∧
     discoverable demoInstalled amberAdapter = true ∧
     ∃ pre post,
       demoVariants.filter (fun b => b.compatible.contains .minimisation)
         = pre ++ amberAdapter :: post ∧
       ∀ b ∈ pre, discoverable demoInstalled b = false) := by
  have h : selectAdapter demoVariants demoInstalled .minimisation
      = .ok amberAdapter := rfl
  exact ⟨h,
    (adapter_selection_deterministic demoVariants demoInstalled
      .minimisation amberAdapter).2 h⟩

/-- C8. Selection fails with `UnsupportedProtocolError` when no variant
declares compatibility, and with `NoEngineFoundError` when compatible
variants exist but none is discoverable; the two errors are distinct; on a
selection error `mdRun` returns no Process (nothing is spawned); and
`start()` on an unlaunched Process whose resolved executable no longer
exists fails with `ExecutableNotFoundError`, leaving the Process unchanged
(so no subprocess is spawned). -/
theorem selection_and_spawn_error_handling (variants : List EngineAdapter)
    (installed : List String) (k : ProtocolKind) (cfg : List String)
    (ex : Bool) (p : Process) :
    ((variants.filter fun a => a.compatible.contains k) = [] →
       selectAdapter variants installed k = .error .unsupportedProtocol) ∧
    ((variants.filter fun a => a.compatible.contains k) ≠ [] →
       (∀ a ∈ variants, a.compatible.contains k = true →
          discoverable installed a = false) →
       selectAdapter variants installed k = .error .noEngineFound) ∧
    (SelectError.noEngineFound ≠ SelectError.unsupportedProtocol) ∧
    (∀ e, selectAdapter variants installed k = .error e →
       mdRun variants installed k cfg ex = .error (.sel e)) ∧
    ((p.state = .created ∨ p.state = .configured) → p.exeExists = false →
       p.start = .error .executableNotFound ∧ p.applyOp .start = p) := by
  refine ⟨?_, ?_, by decide, ?_, ?_⟩
  · intro h
    unfold selectAdapter
    rw [if_pos (show (variants.filter fun a => a.compatible.contains k).isEmpty = true by rw [h]; rfl)]
  · intro hne hnd
    unfold selectAdapter
    rw [if_neg (by simpa using hne)]
    have hf : (variants.filter fun a => a.compatible.contains k).find?
        (discoverable installed) = none := by
      rw [List.find?_eq_none]
      intro a ha
      have hav := (List.mem_filter.mp ha).1
      have hac := (List.mem_filter.mp ha).2
      simp [hnd a hav (by simpa using hac)]
    rw [hf]
  · intro e he
    unfold mdRun
    rw [he]
  · intro hst hex
    have hs : p.start = .error .executableNotFound := by
      rcases hst with h | h <;> simp [Process.start, h, hex]
    exact ⟨hs, by simp [Process.applyOp, hs]⟩

/-- Witness for C8: with no free-energy-capable variant the dispatcher
reports `UnsupportedProtocolError`; with a compatible but uninstalled
variant it reports `NoEngineFoundError` and `mdRun` returns no Process;
a fresh Process with a vanished executable fails `start()` with
`ExecutableNotFoundError`, unchanged. -/
theorem selection_and_spawn_error_handling_witness :
    selectAdapter demoVariants [] .freeEnergyLeg
      = .error .unsupportedProtocol ∧
    selectAdapter demoVariants [] .minimisation = .error .noEngineFound ∧
    mdRun demoVariants [] .minimisation ["line"] true
      = .error (.sel .noEngineFound) ∧
    (Process.mk0 ["line"] false).start = .error .executableNotFound ∧
    (Process.mk0 ["line"] false).applyOp .start = Process.mk0 ["line"] false := by
  refine ⟨?_, ?_, ?_, ?_, ?_⟩
  · exact (selection_and_spawn_error_handling demoVariants [] .freeEnergyLeg
      ["line"] true (Process.mk0 [] true)).1 (by decide)
  · exact (selection_and_spawn_error_handling demoVariants [] .minimisation
      ["line"] true (Process.mk0 [] true)).2.1 (by decide) (by decide)
  · exact (selection_and_spawn_error_handling demoVariants [] .minimisation
      ["line"] true (Process.mk0 [] true)).2.2.2.1 .noEngineFound
      ((selection_and_spawn_error_handling demoVariants [] .minimisation
        ["line"] true (Process.mk0 [] true)).2.1 (by decide) (by decide))
  · exact ((selection_and_spawn_error_handling demoVariants [] .minimisation
      ["line"] true (Process.mk0 ["line"] false)).2.2.2.2
      (Or.inl rfl) rfl).1
  · exact ((selection_and_spawn_error_handling demoVariants [] .minimisation
      ["line"] true (Process.mk0 ["line"] false)).2.2.2.2
      (Or.inl rfl) rfl).2

/-- C9. Every successful `MD.run` call returns a Process that has
already been started: the returned handle is in the `Running` state with a
spawned subprocess, so `isRunning()` and record queries are immediately
meaningful, without the caller ever invoking `start()`. -/
theorem md_run_returns_started (variants : List EngineAdapter)
    (installed : List String) (k : ProtocolKind) (cfg : List String)
    (ex : Bool) (p : Process)
    (h : mdRun variants installed k cfg ex = .ok p) :
    p.state = .running ∧ p.spawned = true ∧ p.isRunning = true := by
  unfold mdRun at h
  cases hs : selectAdapter variants installed k with
  | error e => rw [hs] at h; cases h
  | ok a =>
      rw [hs] at h
      cases ex with
      | false => simp [Process.mk0, Process.start] at h
      | true =>
          have hst : (Process.mk0 cfg true).start
              = .ok { state := .running, config := cfg,
                      writtenConfig := some cfg, writeCount := 1,
                      exeExists := true, spawned := true } := rfl
          rw [hst] at h
          cases h
          exact ⟨rfl, rfl, rfl⟩

/-- Witness for C9 at a concrete dispatch that succeeds. -/
theorem md_run_returns_started_witness :
    mdRun demoVariants demoInstalled .minimisation ["line"] true
      = .ok startedDemoProc ∧
    startedDemoProc.state = .running ∧
    startedDemoProc.spawned = true ∧
    startedDemoProc.isRunning = true := by
  have h : mdRun demoVariants demoInstalled .minimisation ["line"] true
      = .ok startedDemoProc := rfl
  exact ⟨h, md_run_returns_started demoVariants demoInstalled .minimisation
    ["line"] true startedDemoProc h⟩

theorem applyOp_preserves_written (p : Process) (op : ProcOp)
    (h : p.isLaunched = true) :
    (p.applyOp op).isLaunched = true ∧
    (p.applyOp op).writtenConfig = p.writtenConfig ∧
    (p.applyOp op).writeCount = p.writeCount := by
  cases op with
  | start =>
      have hs : p.start = .error .invalidState := by
        cases hst : p.state with
        | created => simp [Process.isLaunched, hst] at h
        | configured => simp [Process.isLaunched, hst] at h
        | running => simp [Process.start, hst]
        | finished => simp [Process.start, hst]
        | killed => simp [Process.start, hst]
        | errored => simp [Process.start, hst]
      simp [Process.applyOp, hs, h]
  | kill =>
      cases hst : p.state with
      | created => simp [Process.isLaunched, hst] at h
      | configured => simp [Process.isLaunched, hst] at h
      | running => simp [Process.applyOp, Process.kill, Process.isLaunched, hst]
      | finished => simp [Process.applyOp, Process.kill, Process.isLaunched, hst]
      | killed => simp [Process.applyOp, Process.kill, Process.isLaunched, hst]
      | errored => simp [Process.applyOp, Process.kill, Process.isLaunched, hst]
  | wait => exact ⟨h, rfl, rfl⟩
  | tick e =>
      cases hst : p.state with
      | running =>
          cases e with
          | none => simp [Process.applyOp, Process.pollerTick, hst, Process.isLaunched]
          | some n =>
              cases n <;>
                simp [Process.applyOp, Process.pollerTick, hst, Process.isLaunched]
      | created => simp [Process.isLaunched, hst] at h
      | configured => simp [Process.isLaunched, hst] at h
      | finished =>
          cases e <;> simp [Process.applyOp, Process.pollerTick, hst, Process.isLaunched]
      | killed =>
          cases e <;> simp [Process.applyOp, Process.pollerTick, hst, Process.isLaunched]
      | errored =>
          cases e <;> simp [Process.applyOp, Process.pollerTick, hst, Process.isLaunched]
  | addConfig ls => exact ⟨h, rfl, rfl⟩
  | replaceConfig ls => exact ⟨h, rfl, rfl⟩

theorem applyOps_preserves_written (p : Process) (ops : List ProcOp)
    (h : p.isLaunched = true) :
    (p.applyOps ops).isLaunched = true ∧
    (p.applyOps ops).writtenConfig = p.writtenConfig ∧
    (p.applyOps ops).writeCount = p.writeCount := by
  induction ops generalizing p with
  | nil => exact ⟨h, rfl, rfl⟩
  | cons op ops ih =>
      obtain ⟨h1, h2, h3⟩ := applyOp_preserves_written p op h
      obtain ⟨g1, g2, g3⟩ := ih (p.applyOp op) h1
      exact ⟨g1, g2.trans h2, g3.trans h3⟩

/-- C7. The ConfigStore's lines are serialized to the config file
verbatim at launch time: before `start()` nothing is written; a successful
`start()` writes exactly the store's line sequence, unchanged, in insertion
order and without deduplication (the file is its line list), and does so
exactly once; after launch no operation — including later config edits,
poller ticks, kill or repeated starts — ever changes the written file or
the write count. -/
theorem config_serialized_once_at_launch (cfg : List String) (exeOk : Bool)
    (ops : List ProcOp) (q : Process)
    (h : (Process.mk0 cfg exeOk).start = .ok q) :
    (Process.mk0 cfg exeOk).writtenConfig = none ∧
    (Process.mk0 cfg exeOk).writeCount = 0 ∧
    q.writtenConfig = some cfg ∧
    q.writeCount = 1 ∧
    (q.applyOps ops).writtenConfig = some cfg ∧
    (q.applyOps ops).writeCount = 1 := by
  cases exeOk with
  | false => simp [Process.mk0, Process.start] at h
  | true =>
      have hq : q = { state := .running, config := cfg,
                      writtenConfig := some cfg, writeCount := 1,
                      exeExists := true, spawned := true } := by
        have hst : (Process.mk0 cfg true).start
            = .ok { state := .running, config := cfg,
                    writtenConfig := some cfg, writeCount := 1,
                    exeExists := true, spawned := true } := rfl
        rw [hst] at h
        cases h
        rfl
      subst hq
      obtain ⟨_, g2, g3⟩ := applyOps_preserves_written
        { state := .running, config := cfg, writtenConfig := some cfg,
          writeCount := 1, exeExists := true, spawned := true } ops rfl
      exact ⟨rfl, rfl, rfl, rfl, by rw [g2], by rw [g3]⟩

/-- Witness for C7 with a duplicate-bearing config and a post-launch
operation sequence that edits the config, finishes the run and retries
`start()`. -/
theorem config_serialized_once_at_launch_witness :
    (Process.mk0 ["b", "a", "a"] true).start
      = .ok { state := .running, config := ["b", "a", "a"],
              writtenConfig := some ["b", "a", "a"], writeCount := 1,
              exeExists := true, spawned := true } ∧
    (Process.mk0 ["b", "a", "a"] true).writtenConfig = none ∧
    (let q : Process := { state := .running, config := ["b", "a", "a"],
                          writtenConfig := some ["b", "a", "a"], writeCount := 1,
                          exeExists := true, spawned := true }
     (q.applyOps [.addConfig ["c"], .tick (some 0), .start]).writtenConfig
        = some ["b", "a", "a"] ∧
     (q.applyOps [.addConfig ["c"], .tick (some 0), .start]).writeCount = 1) := by
  have h : (Process.mk0 ["b", "a", "a"] true).start
      = .ok { state := .running, config := ["b", "a", "a"],
              writtenConfig := some ["b", "a", "a"], writeCount := 1,
              exeExists := true, spawned := true } := rfl
  have hc := config_serialized_once_at_launch ["b", "a", "a"] true
    [.addConfig ["c"], .tick (some 0), .start] _ h
  exact ⟨h, hc.1, hc.2.2.2.2.1, hc.2.2.2.2.2⟩

theorem setArg_keys_of_mem (st : ArgumentStore) (f : String) (v : ArgValue)
    (h : st.any (fun e => e.1 == f) = true) :
    (setArg st f v).map Prod.fst = st.map Prod.fst := by
  unfold setArg
  rw [if_pos h, List.map_map]
  apply List.map_congr_left
  intro e _
  by_cases he : e.1 == f
  · show (if e.1 == f then ((f, v) : String × ArgValue) else e).1 = e.1
    rw [if_pos he]
    exact (eq_of_beq he).symm
  · show (if e.1 == f then ((f, v) : String × ArgValue) else e).1 = e.1
    rw [if_neg he]

theorem setArg_keys_of_not_mem (st : ArgumentStore) (f : String) (v : ArgValue)
    (h : st.any (fun e => e.1 == f) = false) :
    (setArg st f v).map Prod.fst = st.map Prod.fst ++ [f] := by
  unfold setArg
  rw [if_neg (by simp [h]), List.map_append]
  rfl

theorem not_mem_keys_of_any_false (st : ArgumentStore) (f : String)
    (h : st.any (fun e => e.1 == f) = false) :
    f ∉ st.map Prod.fst := by
  intro hmem
  obtain ⟨e, he, hef⟩ := List.mem_map.mp hmem
  have := List.any_eq_false.mp h e he
  simp [hef] at this

theorem setArg_setArg (st : ArgumentStore) (f : String) (v w : ArgValue) :
    setArg (setArg st f v) f w = setArg st f w := by
  by_cases h : st.any (fun e => e.1 == f) = true
  · have h2 : (st.map fun e => if e.1 == f then (f, v) else e).any
        (fun e => e.1 == f) = true := by
      obtain ⟨e, he, hef⟩ := List.any_eq_true.mp h
      apply List.any_eq_true.mpr
      refine ⟨(fun e => if e.1 == f then (f, v) else e) e,
        List.mem_map_of_mem _ he, ?_⟩
      simp [hef]
    have e1 : setArg st f v = st.map fun e => if e.1 == f then (f, v) else e := by
      unfold setArg
      rw [if_pos h]
    have e3 : setArg st f w = st.map fun e => if e.1 == f then (f, w) else e := by
      unfold setArg
      rw [if_pos h]
    rw [e1, e3]
    unfold setArg
    rw [if_pos h2, List.map_map]
    apply List.map_congr_left
    intro e _
    show (fun e => if e.1 == f then ((f, w) : String × ArgValue) else e)
        (if e.1 == f then ((f, v) : String × ArgValue) else e)
      = if e.1 == f then ((f, w) : String × ArgValue) else e
    by_cases he : e.1 == f
    · rw [if_pos he, if_pos he]
      show (if (((f, v) : String × ArgValue).1 == f) = true
              then ((f, w) : String × ArgValue) else (f, v)) = (f, w)
      rw [if_pos (by simp)]
    · rw [if_neg he, if_neg he]
      show (if (e.1 == f) = true then ((f, w) : String × ArgValue) else e) = e
      rw [if_neg he]
  · have hfalse : st.any (fun e => e.1 == f) = false :=
      Bool.eq_false_iff.mpr h
    have h2 : (st ++ [(f, v)]).any (fun e => e.1 == f) = true := by
      apply List.any_eq_true.mpr
      exact ⟨(f, v), by simp, by simp⟩
    have hmap : (st.map fun e => if e.1 == f then (f, w) else e) = st := by
      have hpt : ∀ e ∈ st, (if e.1 == f then ((f, w) : String × ArgValue) else e) = e := by
        intro e he
        have := List.any_eq_false.mp hfalse e he
        rw [if_neg this]
      calc st.map (fun e => if e.1 == f then (f, w) else e)
          = st.map id := List.map_congr_left (by simpa using hpt)
        _ = st := List.map_id st
    have e1 : setArg st f v = st ++ [(f, v)] := by
      unfold setArg
      rw [if_neg (by simp [hfalse])]
    have e2 : setArg st f w = st ++ [(f, w)] := by
      unfold setArg
      rw [if_neg (by simp [hfalse])]
    rw [e1, e2]
    unfold setArg
    rw [if_pos h2, List.map_append, hmap]
    simp

/-- C10. The ArgumentStore never holds two arguments with the same flag
name: `setArg` preserves key uniqueness, replaces an existing entry in
place without touching the key order, collapses under repetition (so
setting a boolean flag to False and then True toggles one single entry),
and on a duplicate-free store leaves exactly one entry named `f`. -/
theorem setArg_single_entry (st : ArgumentStore) (f : String) (v w : ArgValue) :
    ((st.map Prod.fst).Nodup → ((setArg st f v).map Prod.fst).Nodup) ∧
    (st.any (fun e => e.1 == f) = true →
       (setArg st f v).map Prod.fst = st.map Prod.fst) ∧
    (setArg (setArg st f v) f w = setArg st f w) ∧
    ((st.map Prod.fst).Nodup →
       ((setArg st f v).map Prod.fst).count f = 1) := by
  refine ⟨?_, setArg_keys_of_mem st f v, setArg_setArg st f v w, ?_⟩
  · intro hnd
    by_cases h : st.any (fun e => e.1 == f) = true
    · rw [setArg_keys_of_mem st f v h]
      exact hnd
    · have hfalse : st.any (fun e => e.1 == f) = false :=
        Bool.eq_false_iff.mpr h
      rw [setArg_keys_of_not_mem st f v hfalse]
      exact hnd.append (List.nodup_singleton f)
        (by simpa [List.disjoint_singleton] using
          not_mem_keys_of_any_false st f hfalse)
  · intro hnd
    by_cases h : st.any (fun e => e.1 == f) = true
    · rw [setArg_keys_of_mem st f v h]
      obtain ⟨e, he, hef⟩ := List.any_eq_true.mp h
      have hf : f ∈ st.map Prod.fst := by
        apply List.mem_map.mpr
        exact ⟨e, he, by simpa using hef⟩
      exact List.count_eq_one_of_mem hnd hf
    · have hfalse : st.any (fun e => e.1 == f) = false :=
        Bool.eq_false_iff.mpr h
      rw [setArg_keys_of_not_mem st f v hfalse]
      rw [List.count_append]
      rw [List.count_eq_zero_of_not_mem (not_mem_keys_of_any_false st f hfalse)]
      simp

/-- Witness for C10 on the README's example store: toggling `-O` to False
and then True leaves a single `-O` entry and preserves the key order. -/
theorem setArg_single_entry_witness :
    (let st : ArgumentStore := [("-inf", .str "mdinfo.txt"), ("-O", .flag true)]
     ((setArg st "-O" (.flag false)).map Prod.fst).Nodup ∧
     (setArg st "-O" (.flag false)).map Prod.fst = ["-inf", "-O"] ∧
     setArg (setArg st "-O" (.flag false)) "-O" (.flag true)
        = setArg st "-O" (.flag true) ∧
     ((setArg st "-O" (.flag false)).map Prod.fst).count "-O" = 1) := by
  refine ⟨?_, by decide, ?_, ?_⟩
  · exact (setArg_single_entry _ "-O" (.flag false) (.flag true)).1 (by decide)
  · exact (setArg_single_entry _ "-O" (.flag false) (.flag true)).2.2.1
  · exact (setArg_single_entry _ "-O" (.flag false) (.flag true)).2.2.2 (by decide)

end BioSimSpace

